import Mathlib

/-!
Shallow embedding of `src/crc32k.py`: CRC-32K (Koopman polynomial) checksum
engines in four variants (bitwise/table-driven × MSB-first/reflected),
the bit reflector, the derived polynomial constants and the agreement
checker.  Machine integers are modelled as `Nat` with explicit masking by
`0xFFFFFFFF` exactly where the Python source masks; Python's arbitrary
precision integers are `Nat` directly.  Byte strings are `List Nat` whose
elements are below 256 (hypotheses state this where needed).
-/

set_option maxRecDepth 100000

namespace Crc32k

/-- Normal (MSB-first) representation of the CRC-32K polynomial without the
top term (`POLY_MSB = 0x741B8CD7` in the source). -/
def POLY_MSB : Nat := 0x741B8CD7

/-- Loop body accumulator of `reflect_bits`: `width` remaining iterations,
current `value`, accumulated `reflected`.  Each iteration does
`reflected = (reflected << 1) | (value & 1); value >>= 1`. -/
def reflectAux : Nat → Nat → Nat → Nat
  | 0, _, reflected => reflected
  | w + 1, value, reflected =>
      reflectAux w (value >>> 1) ((reflected <<< 1) ||| (value &&& 1))

/-- `reflect_bits(value, width)` from the source: return the bit-reflected
value of the given width.  The width is an integer in Python; `range(width)`
iterates `width.toNat` times (zero times when `width ≤ 0`). -/
def reflect_bits (value : Nat) (width : Int) : Nat :=
  reflectAux width.toNat value 0

/-- Reflected (LSB-first) polynomial for CRC-32K (`POLY_LSB` in the source). -/
def POLY_LSB : Nat := reflect_bits POLY_MSB 32

/-- One step of the inner loop of `bit_crc32k_msb` for a single input bit:
`msb = (crc >> 31) & 1`, shift left, mask to 32 bits and conditionally XOR
the polynomial when `msb ^ in_bit` is nonzero. -/
def msbBitStep (crc inBit : Nat) : Nat :=
  let msb := (crc >>> 31) &&& 1
  let c := (crc <<< 1) &&& 0xFFFFFFFF
  if msb ^^^ inBit ≠ 0 then c ^^^ POLY_MSB else c

/-- Per-byte body of `bit_crc32k_msb`: feed the 8 bits of `byte` from the
most significant (`bit_index = 0` reads bit 7) to the least significant. -/
def msbByteStep (crc byte : Nat) : Nat :=
  (List.range 8).foldl (fun crc bit_index =>
    msbBitStep crc ((byte >>> (7 - bit_index)) &&& 1)) crc

/-- Recursive restatement of the 8-bit inner loop of `bit_crc32k_msb`:
`msbBitsFold n byte crc` feeds bits `n-1, n-2, …, 0` of `byte` (highest
remaining first) into `msbBitStep`. -/
def msbBitsFold : Nat → Nat → Nat → Nat
  | 0, _, crc => crc
  | n + 1, byte, crc => msbBitsFold n byte (msbBitStep crc ((byte >>> n) &&& 1))

/-- `bit_crc32k_msb(data)`: bitwise MSB-first CRC-32K, initial value 0,
no final XOR; processes bits from MSB to LSB in each byte. -/
def bit_crc32k_msb (data : List Nat) : Nat :=
  (data.foldl msbByteStep 0) &&& 0xFFFFFFFF

/-- One round of the MSB-first table generator loop body from
`_make_table_msb`: shift left, mask to 32 bits, conditionally XOR the
polynomial when the top bit was set. -/
def msbRound (crc : Nat) : Nat :=
  if crc &&& 0x80000000 ≠ 0 then ((crc <<< 1) &&& 0xFFFFFFFF) ^^^ POLY_MSB
  else (crc <<< 1) &&& 0xFFFFFFFF

/-- `n` iterations of `msbRound`. -/
def msbRounds : Nat → Nat → Nat
  | 0, crc => crc
  | n + 1, crc => msbRounds n (msbRound crc)

/-- `_make_table_msb()`: the 256-entry MSB-first table; entry `i` is the
result of 8 rounds starting from `i << 24`, masked to 32 bits. -/
def _TABLE_MSB : List Nat :=
  (List.range 256).map (fun i => msbRounds 8 (i <<< 24) &&& 0xFFFFFFFF)

/-- Per-byte body of `table_crc32k_msb`: table index is
`((crc >> 24) ^ byte) & 0xFF`, update is `((crc << 8) ^ table[index])`
masked to 32 bits. -/
def tableMsbByteStep (crc byte : Nat) : Nat :=
  let index := ((crc >>> 24) ^^^ byte) &&& 0xFF
  (((crc <<< 8) &&& 0xFFFFFFFF) ^^^ _TABLE_MSB.getD index 0) &&& 0xFFFFFFFF

/-- `table_crc32k_msb(data)` with the default table: table-driven MSB-first
CRC-32K, initial value 0, no final XOR. -/
def table_crc32k_msb (data : List Nat) : Nat :=
  (data.foldl tableMsbByteStep 0) &&& 0xFFFFFFFF

/-- One round of the LSB-first (reflected) loop body, written identically in
`bit_crc32k_reflected` and `_make_table_lsb`: if the low bit is set, shift
right and XOR the reflected polynomial, else just shift right. -/
def lsbRound (crc : Nat) : Nat :=
  if crc &&& 1 ≠ 0 then (crc >>> 1) ^^^ POLY_LSB else crc >>> 1

/-- `n` iterations of `lsbRound`. -/
def lsbRounds : Nat → Nat → Nat
  | 0, crc => crc
  | n + 1, crc => lsbRounds n (lsbRound crc)

/-- Per-byte body of `bit_crc32k_reflected`: XOR the input byte into the low
8 bits of the CRC, then run the 8-round shift loop. -/
def lsbByteStep (crc byte : Nat) : Nat :=
  (List.range 8).foldl (fun crc _ => lsbRound crc) (crc ^^^ byte)

/-- The accumulator of `bit_crc32k_reflected` after the main loop, before
the final mask and reflection. -/
def bit_crc32k_reflected_raw (data : List Nat) : Nat :=
  data.foldl lsbByteStep 0

/-- `bit_crc32k_reflected(data)`: bitwise LSB-first CRC-32K with reflected
polynomial; the final CRC is masked and reflected to match MSB-first
results. -/
def bit_crc32k_reflected (data : List Nat) : Nat :=
  reflect_bits (bit_crc32k_reflected_raw data &&& 0xFFFFFFFF) 32

/-- `_make_table_lsb()`: the 256-entry LSB-first (reflected) table; entry
`i` is the result of 8 `lsbRound` steps starting from `i`, masked. -/
def _TABLE_LSB : List Nat :=
  (List.range 256).map (fun i => lsbRounds 8 i &&& 0xFFFFFFFF)

/-- Per-byte body of `table_crc32k_reflected`: table index is
`(crc ^ byte) & 0xFF`, update is `(crc >> 8) ^ table[index]`, masked. -/
def tableLsbByteStep (crc byte : Nat) : Nat :=
  let index := (crc ^^^ byte) &&& 0xFF
  ((crc >>> 8) ^^^ _TABLE_LSB.getD index 0) &&& 0xFFFFFFFF

/-- `table_crc32k_reflected(data)` with the default table; returns the
reflected output so it equals the MSB-first routines' orientation. -/
def table_crc32k_reflected (data : List Nat) : Nat :=
  reflect_bits ((data.foldl tableLsbByteStep 0) &&& 0xFFFFFFFF) 32

/-- `all_algorithms_agree(data)`: run all four algorithms and return
`(agree, values)`, where `values = [msb_bit, msb_table, lsb_bit, lsb_table]`
and `agree` is Python's `len(set(values)) == 1` (the number of distinct
values is one). -/
def all_algorithms_agree (data : List Nat) : Bool × List Nat :=
  let v1 := bit_crc32k_msb data
  let v2 := table_crc32k_msb data
  let v3 := bit_crc32k_reflected data
  let v4 := table_crc32k_reflected data
  let values := [v1, v2, v3, v4]
  (values.toFinset.card == 1, values)

/-! ### Generic bit-manipulation toolkit -/

theorem and_two_pow_sub_one (x n : Nat) : x &&& (2 ^ n - 1) = x % 2 ^ n := by
  apply Nat.eq_of_testBit_eq
  intro i
  by_cases h : i < n <;>
    simp [Nat.testBit_land, Nat.testBit_two_pow_sub_one, Nat.testBit_mod_two_pow, h]

theorem mask32_eq_mod (x : Nat) : x &&& 0xFFFFFFFF = x % 2 ^ 32 := by
  have h : (0xFFFFFFFF : Nat) = 2 ^ 32 - 1 := by norm_num
  rw [h, and_two_pow_sub_one]

theorem mask8_eq_mod (x : Nat) : x &&& 0xFF = x % 2 ^ 8 := by
  have h : (0xFF : Nat) = 2 ^ 8 - 1 := by norm_num
  rw [h, and_two_pow_sub_one]

theorem mask32_of_lt {x : Nat} (h : x < 2 ^ 32) : x &&& 0xFFFFFFFF = x := by
  rw [mask32_eq_mod, Nat.mod_eq_of_lt h]

theorem xor_shiftLeft (x y n : Nat) :
    (x ^^^ y) <<< n = (x <<< n) ^^^ (y <<< n) := by
  apply Nat.eq_of_testBit_eq
  intro i
  by_cases h : n ≤ i <;>
    simp [Nat.testBit_shiftLeft, Nat.testBit_xor, h]

theorem xor_shiftRight (x y n : Nat) :
    (x ^^^ y) >>> n = (x >>> n) ^^^ (y >>> n) := by
  apply Nat.eq_of_testBit_eq
  intro i
  simp [Nat.testBit_shiftRight, Nat.testBit_xor]

theorem xor_mod_two_pow (x y n : Nat) :
    (x ^^^ y) % 2 ^ n = (x % 2 ^ n) ^^^ (y % 2 ^ n) := by
  apply Nat.eq_of_testBit_eq
  intro i
  by_cases h : i < n <;>
    simp [Nat.testBit_mod_two_pow, Nat.testBit_xor, h]

/-- Splitting a natural number at bit `n`: low part XOR shifted high part. -/
theorem mod_xor_shift_decompose (x n : Nat) :
    (x % 2 ^ n) ^^^ ((x >>> n) <<< n) = x := by
  apply Nat.eq_of_testBit_eq
  intro i
  by_cases h : i < n
  · simp [Nat.testBit_xor, Nat.testBit_mod_two_pow, Nat.testBit_shiftLeft, h,
      Nat.not_le.mpr h]
  · have hn : n ≤ i := Nat.le_of_not_lt h
    simp [Nat.testBit_xor, Nat.testBit_mod_two_pow, Nat.testBit_shiftLeft, h, hn,
      Nat.add_sub_cancel' hn]

theorem testBit_false_of_lt {x n i : Nat} (h : x < 2 ^ n) (hi : n ≤ i) :
    x.testBit i = false :=
  Nat.testBit_lt_two_pow (Nat.lt_of_lt_of_le h (Nat.pow_le_pow_right (by norm_num) hi))

theorem shiftLeft_lt_two_pow {x k n m : Nat} (h : x < 2 ^ k) (hkn : k + n ≤ m) :
    x <<< n < 2 ^ m := by
  apply Nat.lt_pow_two_of_testBit
  intro i hi
  rw [Nat.testBit_shiftLeft]
  rcases Nat.lt_or_ge i n with hlt | hge
  · simp [Nat.not_le.mpr hlt]
  · have : k ≤ i - n := by omega
    simp [testBit_false_of_lt h this]

/-- Extracting one bit `(x >> k) & 1` equals the boolean `testBit` as a 0/1
number. -/
theorem shiftRight_and_one (x k : Nat) :
    (x >>> k) &&& 1 = (x.testBit k).toNat := by
  have h1 : (1 : Nat) = 2 ^ 0 := by norm_num
  rw [h1, Nat.and_two_pow, Nat.testBit_shiftRight]
  simp

/-! ### The bit reflector -/

/-- Bit-level description of the reflector loop: the low `w` bits of `value`
enter reversed below the shifted initial accumulator. -/
theorem reflectAux_testBit (w : Nat) :
    ∀ (value reflected i : Nat),
      (reflectAux w value reflected).testBit i =
        if i < w then value.testBit (w - 1 - i) else reflected.testBit (i - w) := by
  induction w with
  | zero => intro value reflected i; simp [reflectAux]
  | succ w ih =>
    intro value reflected i
    rw [reflectAux, ih]
    rcases Nat.lt_trichotomy i w with h | h | h
    · have h1 : i < w + 1 := by omega
      simp only [h, h1, if_true]
      rw [Nat.testBit_shiftRight]
      congr 1
      omega
    · subst h
      have h1 : i < i + 1 := by omega
      simp only [Nat.lt_irrefl, if_false, h1, if_true, Nat.sub_self]
      rw [Nat.testBit_lor, Nat.testBit_shiftLeft, Nat.testBit_land]
      have : (1 : Nat) = 2 ^ 1 - 1 := by norm_num
      rw [this, Nat.testBit_two_pow_sub_one]
      simp [Nat.add_sub_cancel_left]
    · have h1 : ¬ i < w := by omega
      have h2 : ¬ i < w + 1 := by omega
      simp only [h1, h2, if_false]
      rw [Nat.testBit_lor, Nat.testBit_shiftLeft, Nat.testBit_land]
      have e1 : (1 : Nat) = 2 ^ 1 - 1 := by norm_num
      rw [e1, Nat.testBit_two_pow_sub_one]
      have h3 : 1 ≤ i - w := by omega
      have h4 : ¬ i - w < 1 := by omega
      have h5 : i - w - 1 = i - (w + 1) := by omega
      simp only [ge_iff_le, h3, h4, decide_eq_true_eq, h5]
      simp [h3, h4, h5]

theorem reflect_bits_testBit (value w i : Nat) :
    (reflect_bits value (w : Int)).testBit i =
      if i < w then value.testBit (w - 1 - i) else false := by
  rw [reflect_bits, Int.toNat_ofNat, reflectAux_testBit]
  simp [Nat.zero_testBit]

theorem reflect_bits_lt (value w : Nat) : reflect_bits value (w : Int) < 2 ^ w := by
  apply Nat.lt_pow_two_of_testBit
  intro i hi
  rw [reflect_bits_testBit]
  simp [Nat.not_lt.mpr hi]

theorem reflect_bits_mod (value w : Nat) :
    reflect_bits value (w : Int) = reflect_bits (value % 2 ^ w) (w : Int) := by
  apply Nat.eq_of_testBit_eq
  intro i
  rw [reflect_bits_testBit, reflect_bits_testBit]
  by_cases h : i < w
  · simp only [h, if_true]
    rw [Nat.testBit_mod_two_pow]
    have : w - 1 - i < w := by omega
    simp [this]
  · simp [h]

theorem reflect_bits_involution {x : Nat} (w : Nat) (h : x < 2 ^ w) :
    reflect_bits (reflect_bits x (w : Int)) (w : Int) = x := by
  apply Nat.eq_of_testBit_eq
  intro i
  rw [reflect_bits_testBit]
  by_cases hi : i < w
  · rw [if_pos hi, reflect_bits_testBit]
    have h1 : w - 1 - i < w := by omega
    rw [if_pos h1]
    congr 1
    omega
  · rw [if_neg hi, testBit_false_of_lt h (Nat.le_of_not_lt hi)]

/-! ### MSB-first engines: bitwise = table-driven -/

theorem msbByteStep_eq_bitsFold (crc byte : Nat) :
    msbByteStep crc byte = msbBitsFold 8 byte crc := rfl

theorem msbRound_eq (c : Nat) :
    msbRound c =
      ((c <<< 1) &&& 0xFFFFFFFF) ^^^ (if c.testBit 31 then POLY_MSB else 0) := by
  have h80 : (0x80000000 : Nat) = 2 ^ 31 := by norm_num
  rw [msbRound, h80, Nat.and_two_pow]
  by_cases hb : c.testBit 31 <;> simp [hb]

theorem if_xor_distrib (a b : Bool) (P : Nat) :
    (if (a ^^ b) then P else 0) = (if a then P else 0) ^^^ (if b then P else 0) := by
  cases a <;> cases b <;> simp [Nat.xor_self]

theorem xor_left_comm (a b c : Nat) : a ^^^ (b ^^^ c) = b ^^^ (a ^^^ c) := by
  rw [← Nat.xor_assoc, Nat.xor_comm a b, Nat.xor_assoc]

theorem msbRound_linear (x y : Nat) :
    msbRound (x ^^^ y) = msbRound x ^^^ msbRound y := by
  rw [msbRound_eq, msbRound_eq, msbRound_eq, Nat.testBit_xor, xor_shiftLeft,
    Nat.and_xor_distrib_right, if_xor_distrib]
  simp [Nat.xor_assoc, Nat.xor_comm, xor_left_comm]

theorem POLY_MSB_lt : POLY_MSB < 2 ^ 32 := by norm_num [POLY_MSB]

theorem mask32_lt (x : Nat) : x &&& 0xFFFFFFFF < 2 ^ 32 := by
  rw [mask32_eq_mod]
  exact Nat.mod_lt _ (by norm_num)

theorem msbRound_lt (c : Nat) : msbRound c < 2 ^ 32 := by
  rw [msbRound_eq]
  apply Nat.xor_lt_two_pow (mask32_lt _)
  split
  · exact POLY_MSB_lt
  · norm_num

theorem msbRound_small {c : Nat} (h : c < 2 ^ 31) : msbRound c = c <<< 1 := by
  rw [msbRound_eq, testBit_false_of_lt h (Nat.le_refl 31), if_neg Bool.false_ne_true,
    Nat.xor_zero, mask32_of_lt (shiftLeft_lt_two_pow h (by norm_num))]

theorem msbRounds_linear (n x y : Nat) :
    msbRounds n (x ^^^ y) = msbRounds n x ^^^ msbRounds n y := by
  induction n generalizing x y with
  | zero => rfl
  | succ n ih => rw [msbRounds, msbRounds, msbRounds, msbRound_linear, ih]

theorem msbRounds_lt (n : Nat) {c : Nat} (h : c < 2 ^ 32) : msbRounds n c < 2 ^ 32 := by
  induction n generalizing c with
  | zero => exact h
  | succ n ih => exact ih (msbRound_lt _)

theorem msbRounds_small :
    ∀ (n : Nat) {v : Nat}, n ≤ 32 → v < 2 ^ (32 - n) → msbRounds n v = v <<< n := by
  intro n
  induction n with
  | zero => intro v _ _; simp [msbRounds, Nat.shiftLeft_zero]
  | succ n ih =>
    intro v hn hv
    have hv31 : v < 2 ^ 31 :=
      Nat.lt_of_lt_of_le hv (Nat.pow_le_pow_right (by norm_num) (by omega))
    rw [msbRounds, msbRound_small hv31, ih (by omega) ?_]
    · rw [← Nat.shiftLeft_add]
      congr 1
      omega
    · rw [Nat.shiftLeft_eq]
      have h2 : (2 : Nat) ^ (32 - (n + 1)) * 2 ^ 1 = 2 ^ (32 - n) := by
        rw [← Nat.pow_add]; congr 1; omega
      rw [← h2]
      exact (Nat.mul_lt_mul_right (by norm_num)).mpr hv

theorem msbBitStep_eq_round (c : Nat) {i : Nat} (hi : i ≤ 1) :
    msbBitStep c i = msbRound (c ^^^ (i <<< 31)) := by
  rcases Nat.le_one_iff_eq_zero_or_eq_one.mp hi with rfl | rfl
  · rw [Nat.zero_shiftLeft, Nat.xor_zero, msbRound_eq, msbBitStep,
      shiftRight_and_one]
    by_cases hb : c.testBit 31 <;> simp [hb]
  · rw [Nat.one_shiftLeft, msbRound_eq, msbBitStep, shiftRight_and_one]
    have hsh : ((c ^^^ 2 ^ 31) <<< 1) &&& 0xFFFFFFFF = (c <<< 1) &&& 0xFFFFFFFF := by
      rw [xor_shiftLeft, Nat.and_xor_distrib_right]
      have h1 : ((2 ^ 31 : Nat) <<< 1) &&& 0xFFFFFFFF = 0 := by
        rw [Nat.shiftLeft_eq, mask32_eq_mod]
        norm_num
      rw [h1, Nat.xor_zero]
    have hbit : (c ^^^ 2 ^ 31).testBit 31 = !(c.testBit 31) := by
      rw [Nat.testBit_xor, Nat.testBit_two_pow_self]
      cases c.testBit 31 <;> rfl
    rw [hsh, hbit]
    by_cases hb : c.testBit 31 <;> simp [hb]

/-- Bit `n` of `x`, placed at position `n`, XORed with the bits below `n`,
reassembles the bits below `n + 1`. -/
theorem mod_two_pow_succ_decompose (x n : Nat) :
    x % 2 ^ (n + 1) = (((x >>> n) &&& 1) <<< n) ^^^ (x % 2 ^ n) := by
  rw [shiftRight_and_one]
  apply Nat.eq_of_testBit_eq
  intro i
  by_cases hbn : x.testBit n
  · rw [hbn]
    have h1 : (true.toNat <<< n) = 2 ^ n := by rw [← Nat.one_shiftLeft]; rfl
    rw [h1, Nat.testBit_xor, Nat.testBit_two_pow, Nat.testBit_mod_two_pow,
      Nat.testBit_mod_two_pow]
    rcases Nat.lt_trichotomy i n with h | h | h
    · simp [h, Nat.lt_succ_of_lt h, Nat.ne_of_gt h]
    · subst h
      simp [Nat.lt_succ_self, hbn]
    · simp [Nat.not_lt.mpr h, Nat.not_lt.mpr (Nat.le_of_lt h), Nat.ne_of_lt h,
        Nat.lt_succ_iff]
  · rw [Bool.not_eq_true] at hbn
    rw [hbn]
    have h0 : (false.toNat <<< n) = 0 := by
      rw [Bool.toNat_false, Nat.zero_shiftLeft]
    rw [h0, Nat.zero_xor, Nat.testBit_mod_two_pow, Nat.testBit_mod_two_pow]
    rcases Nat.lt_trichotomy i n with h | h | h
    · simp [h, Nat.lt_succ_of_lt h]
    · subst h
      simp [Nat.lt_succ_self, hbn]
    · simp [Nat.not_lt.mpr (Nat.le_of_lt h), Nat.lt_succ_iff, Nat.not_le.mpr h]

/-- The inner 8-bit loop of the bitwise MSB engine is the table-generator
recurrence applied to the register XORed with the (masked) byte shifted to
the top. -/
theorem msbBitsFold_eq_rounds :
    ∀ (n : Nat), n ≤ 32 → ∀ (byte crc : Nat),
      msbBitsFold n byte crc = msbRounds n (crc ^^^ ((byte % 2 ^ n) <<< (32 - n))) := by
  intro n
  induction n with
  | zero =>
    intro _ byte crc
    simp [msbBitsFold, msbRounds, Nat.mod_one, Nat.zero_shiftLeft]
  | succ n ih =>
    intro hn byte crc
    rw [msbBitsFold, ih (by omega)]
    have hhi : (byte >>> n) &&& 1 ≤ 1 := Nat.and_le_right
    rw [msbBitStep_eq_round _ hhi]
    have hlow : (byte % 2 ^ n) <<< (32 - (n + 1)) < 2 ^ 31 :=
      shiftLeft_lt_two_pow (Nat.mod_lt _ (Nat.pos_pow_of_pos n (by norm_num)))
        (by omega)
    have hstep : (byte % 2 ^ n) <<< (32 - n) =
        msbRound ((byte % 2 ^ n) <<< (32 - (n + 1))) := by
      rw [msbRound_small hlow, ← Nat.shiftLeft_add]
      congr 1
      omega
    rw [hstep, ← msbRound_linear]
    have hsplit : ((byte >>> n) &&& 1) <<< 31 ^^^ (byte % 2 ^ n) <<< (32 - (n + 1)) =
        (byte % 2 ^ (n + 1)) <<< (32 - (n + 1)) := by
      rw [mod_two_pow_succ_decompose, xor_shiftLeft, ← Nat.shiftLeft_add]
      congr 2
      omega
    rw [Nat.xor_assoc, hsplit]
    rfl

theorem shiftRight_lt {x n k : Nat} (h : x < 2 ^ (k + n)) : x >>> n < 2 ^ k := by
  apply Nat.lt_pow_two_of_testBit
  intro i hi
  rw [Nat.testBit_shiftRight]
  exact testBit_false_of_lt h (by omega)

theorem shiftLeft_mod_two_pow (x n m : Nat) :
    (x <<< n) % 2 ^ (m + n) = (x % 2 ^ m) <<< n := by
  apply Nat.eq_of_testBit_eq
  intro i
  rw [Nat.testBit_mod_two_pow, Nat.testBit_shiftLeft, Nat.testBit_shiftLeft,
    Nat.testBit_mod_two_pow]
  by_cases h1 : n ≤ i
  · have h3 : (i < m + n) = (i - n < m) := by
      apply propext; constructor <;> (intro; omega)
    simp [h1, h3]
  · simp [h1]

theorem _TABLE_MSB_getD {i : Nat} (h : i < 256) :
    _TABLE_MSB.getD i 0 = msbRounds 8 (i <<< 24) := by
  have hlen : i < _TABLE_MSB.length := by
    simpa [_TABLE_MSB, List.length_map, List.length_range] using h
  rw [List.getD_eq_getElem _ _ hlen]
  simp only [_TABLE_MSB, List.getElem_map, List.getElem_range]
  exact mask32_of_lt (msbRounds_lt 8 (shiftLeft_lt_two_pow (show i < 2 ^ 8 from h)
    (by norm_num)))

/-- One byte through the bitwise MSB inner loop equals one byte through the
table-driven MSB update, for a 32-bit register and a genuine byte. -/
theorem msbByteStep_eq_table {crc byte : Nat} (hc : crc < 2 ^ 32) (hb : byte < 256) :
    msbByteStep crc byte = tableMsbByteStep crc byte := by
  have hb8 : byte < 2 ^ 8 := hb
  rw [msbByteStep_eq_bitsFold, msbBitsFold_eq_rounds 8 (by norm_num)]
  have hmod : byte % 2 ^ 8 = byte := Nat.mod_eq_of_lt hb8
  rw [hmod]
  show msbRounds 8 (crc ^^^ byte <<< (32 - 8)) = _
  have h24 : (32 - 8 : Nat) = 24 := by norm_num
  rw [h24]
  set x := crc ^^^ byte <<< 24 with hx
  rw [← mod_xor_shift_decompose x 24, msbRounds_linear,
    msbRounds_small 8 (by norm_num)
      (by rw [show (32 - 8 : Nat) = 24 by norm_num]; exact Nat.mod_lt _ (by norm_num))]
  have hxmod : x % 2 ^ 24 = crc % 2 ^ 24 := by
    rw [hx, xor_mod_two_pow, Nat.shiftLeft_eq, Nat.mul_mod_left, Nat.xor_zero]
  have hxhi : x >>> 24 = (crc >>> 24) ^^^ byte := by
    rw [hx, xor_shiftRight, Nat.shiftLeft_shiftRight]
  have hidx : (crc >>> 24) ^^^ byte < 256 := by
    have h1 : crc >>> 24 < 2 ^ 8 := shiftRight_lt (by norm_num at hc ⊢; omega)
    exact Nat.xor_lt_two_pow h1 hb8
  have htab : tableMsbByteStep crc byte =
      (((crc <<< 8) &&& 0xFFFFFFFF) ^^^ msbRounds 8 (((crc >>> 24) ^^^ byte) <<< 24)) &&&
        0xFFFFFFFF := by
    show (((crc <<< 8) &&& 0xFFFFFFFF) ^^^
        _TABLE_MSB.getD (((crc >>> 24) ^^^ byte) &&& 0xFF) 0) &&& 0xFFFFFFFF = _
    rw [mask8_eq_mod, Nat.mod_eq_of_lt (show (crc >>> 24) ^^^ byte < 2 ^ 8 from hidx),
      _TABLE_MSB_getD hidx]
  rw [htab, hxmod, hxhi]
  have hshift : (crc <<< 8) &&& 0xFFFFFFFF = (crc % 2 ^ 24) <<< 8 := by
    rw [mask32_eq_mod, show (2 : Nat) ^ 32 = 2 ^ (24 + 8) by norm_num,
      shiftLeft_mod_two_pow]
  rw [hshift]
  have hlt1 : (crc % 2 ^ 24) <<< 8 < 2 ^ 32 :=
    shiftLeft_lt_two_pow (Nat.mod_lt _ (by norm_num)) (by norm_num)
  have hlt2 : msbRounds 8 (((crc >>> 24) ^^^ byte) <<< 24) < 2 ^ 32 :=
    msbRounds_lt 8 (shiftLeft_lt_two_pow (show (crc >>> 24) ^^^ byte < 2 ^ 8 from hidx)
      (by norm_num))
  rw [mask32_of_lt (Nat.xor_lt_two_pow hlt1 hlt2)]

theorem msb_fold_invariant :
    ∀ (data : List Nat) (crc : Nat), crc < 2 ^ 32 → (∀ b ∈ data, b < 256) →
      data.foldl msbByteStep crc = data.foldl tableMsbByteStep crc ∧
      data.foldl tableMsbByteStep crc < 2 ^ 32 := by
  intro data
  induction data with
  | nil => intro crc hc _; exact ⟨rfl, hc⟩
  | cons b l ih =>
    intro crc hc hbytes
    have hb : b < 256 := hbytes b (List.mem_cons_self b l)
    have hstep : msbByteStep crc b = tableMsbByteStep crc b := msbByteStep_eq_table hc hb
    have hlt : tableMsbByteStep crc b < 2 ^ 32 := mask32_lt _
    rw [List.foldl_cons, List.foldl_cons, hstep]
    exact ih (tableMsbByteStep crc b) hlt (fun x hx => hbytes x (List.mem_cons_of_mem _ hx))

/-- The two MSB-first engines agree on every byte sequence. -/
theorem msb_engines_agree {data : List Nat} (h : ∀ b ∈ data, b < 256) :
    bit_crc32k_msb data = table_crc32k_msb data := by
  rw [bit_crc32k_msb, table_crc32k_msb, (msb_fold_invariant data 0 (by norm_num) h).1]

/-! ### Reflected (LSB-first) engines: bitwise = table-driven -/

theorem lsbByteStep_eq_rounds (crc byte : Nat) :
    lsbByteStep crc byte = lsbRounds 8 (crc ^^^ byte) := rfl

theorem POLY_LSB_lt : POLY_LSB < 2 ^ 32 := by decide

theorem lsbRound_eq (c : Nat) :
    lsbRound c = (c >>> 1) ^^^ (if c.testBit 0 then POLY_LSB else 0) := by
  have h1 : c &&& 1 = (c.testBit 0).toNat := by
    have := shiftRight_and_one c 0
    rwa [Nat.shiftRight_zero] at this
  rw [lsbRound, h1]
  by_cases hb : c.testBit 0 <;> simp [hb]

theorem lsbRound_linear (x y : Nat) :
    lsbRound (x ^^^ y) = lsbRound x ^^^ lsbRound y := by
  rw [lsbRound_eq, lsbRound_eq, lsbRound_eq, Nat.testBit_xor, xor_shiftRight,
    if_xor_distrib]
  simp [Nat.xor_assoc, Nat.xor_comm, xor_left_comm]

theorem lsbRound_lt {c : Nat} (h : c < 2 ^ 32) : lsbRound c < 2 ^ 32 := by
  rw [lsbRound_eq]
  apply Nat.xor_lt_two_pow
  · rw [Nat.shiftRight_eq_div_pow]
    exact Nat.lt_of_le_of_lt (Nat.div_le_self _ _) h
  · split
    · exact POLY_LSB_lt
    · norm_num

theorem lsbRounds_linear (n x y : Nat) :
    lsbRounds n (x ^^^ y) = lsbRounds n x ^^^ lsbRounds n y := by
  induction n generalizing x y with
  | zero => rfl
  | succ n ih => rw [lsbRounds, lsbRounds, lsbRounds, lsbRound_linear, ih]

theorem lsbRounds_lt (n : Nat) {c : Nat} (h : c < 2 ^ 32) : lsbRounds n c < 2 ^ 32 := by
  induction n generalizing c with
  | zero => exact h
  | succ n ih => exact ih (lsbRound_lt h)

/-- A value with `n` trailing zero bits passes untouched through `n` rounds
of the reflected recurrence: the rounds just shift it back down. -/
theorem lsbRounds_shifted : ∀ (n v : Nat), lsbRounds n (v <<< n) = v := by
  intro n
  induction n with
  | zero => intro v; rw [Nat.shiftLeft_zero]; rfl
  | succ n ih =>
    intro v
    rw [lsbRounds, lsbRound_eq]
    have hbit : (v <<< (n + 1)).testBit 0 = false := by
      rw [Nat.testBit_shiftLeft]
      simp
    rw [hbit, if_neg Bool.false_ne_true, Nat.xor_zero,
      show v <<< (n + 1) = (v <<< n) <<< 1 from Nat.shiftLeft_add v n 1,
      Nat.shiftLeft_shiftRight]
    exact ih v

theorem _TABLE_LSB_getD {i : Nat} (h : i < 256) :
    _TABLE_LSB.getD i 0 = lsbRounds 8 i := by
  have hlen : i < _TABLE_LSB.length := by
    simpa [_TABLE_LSB, List.length_map, List.length_range] using h
  rw [List.getD_eq_getElem _ _ hlen]
  simp only [_TABLE_LSB, List.getElem_map, List.getElem_range]
  exact mask32_of_lt (lsbRounds_lt 8 (by norm_num at h ⊢; omega))

/-- One byte through the bitwise reflected inner loop equals one byte
through the table-driven reflected update, for a 32-bit register and a
genuine byte. -/
theorem lsbByteStep_eq_table {crc byte : Nat} (hc : crc < 2 ^ 32) (hb : byte < 256) :
    lsbByteStep crc byte = tableLsbByteStep crc byte := by
  rw [lsbByteStep_eq_rounds]
  set x := crc ^^^ byte with hx
  rw [← mod_xor_shift_decompose x 8, lsbRounds_linear, lsbRounds_shifted]
  have hxhi : x >>> 8 = crc >>> 8 := by
    rw [hx, xor_shiftRight, Nat.shiftRight_eq_div_pow byte,
      Nat.div_eq_of_lt (show byte < 2 ^ 8 from hb), Nat.xor_zero]
  have hidx : x % 2 ^ 8 < 256 := Nat.mod_lt _ (by norm_num)
  have htab : tableLsbByteStep crc byte =
      ((crc >>> 8) ^^^ lsbRounds 8 (x % 2 ^ 8)) &&& 0xFFFFFFFF := by
    show ((crc >>> 8) ^^^ _TABLE_LSB.getD ((crc ^^^ byte) &&& 0xFF) 0) &&& 0xFFFFFFFF = _
    rw [mask8_eq_mod, _TABLE_LSB_getD hidx]
  rw [htab, hxhi]
  have hlt1 : crc >>> 8 < 2 ^ 32 := by
    rw [Nat.shiftRight_eq_div_pow]
    exact Nat.lt_of_le_of_lt (Nat.div_le_self _ _) hc
  have hlt2 : lsbRounds 8 (x % 2 ^ 8) < 2 ^ 32 :=
    lsbRounds_lt 8 (Nat.lt_trans hidx (by norm_num))
  rw [mask32_of_lt (Nat.xor_lt_two_pow hlt1 hlt2), Nat.xor_comm]

theorem lsb_fold_invariant :
    ∀ (data : List Nat) (crc : Nat), crc < 2 ^ 32 → (∀ b ∈ data, b < 256) →
      data.foldl lsbByteStep crc = data.foldl tableLsbByteStep crc ∧
      data.foldl tableLsbByteStep crc < 2 ^ 32 := by
  intro data
  induction data with
  | nil => intro crc hc _; exact ⟨rfl, hc⟩
  | cons b l ih =>
    intro crc hc hbytes
    have hb : b < 256 := hbytes b (List.mem_cons_self b l)
    have hstep : lsbByteStep crc b = tableLsbByteStep crc b := lsbByteStep_eq_table hc hb
    have hlt : tableLsbByteStep crc b < 2 ^ 32 := mask32_lt _
    rw [List.foldl_cons, List.foldl_cons, hstep]
    exact ih (tableLsbByteStep crc b) hlt (fun x hx => hbytes x (List.mem_cons_of_mem _ hx))

/-- The two reflected engines agree on every byte sequence. -/
theorem reflected_engines_agree {data : List Nat} (h : ∀ b ∈ data, b < 256) :
    bit_crc32k_reflected data = table_crc32k_reflected data := by
  rw [bit_crc32k_reflected, table_crc32k_reflected, bit_crc32k_reflected_raw,
    (lsb_fold_invariant data 0 (by norm_num) h).1]

/-- A four-element list collapses to a single distinct value exactly when
all entries are equal (this is Python's `len(set(values)) == 1`). -/
theorem four_list_card_one_iff (a b c d : Nat) :
    ([a, b, c, d].toFinset.card = 1) ↔ (a = b ∧ a = c ∧ a = d) := by
  constructor
  · intro h
    rcases Finset.card_eq_one.mp h with ⟨x, hx⟩
    have ha : a = x := by
      have hm : a ∈ [a, b, c, d].toFinset := by simp
      rw [hx, Finset.mem_singleton] at hm
      exact hm
    have hb : b = x := by
      have hm : b ∈ [a, b, c, d].toFinset := by simp
      rw [hx, Finset.mem_singleton] at hm
      exact hm
    have hc : c = x := by
      have hm : c ∈ [a, b, c, d].toFinset := by simp
      rw [hx, Finset.mem_singleton] at hm
      exact hm
    have hd : d = x := by
      have hm : d ∈ [a, b, c, d].toFinset := by simp
      rw [hx, Finset.mem_singleton] at hm
      exact hm
    exact ⟨ha.trans hb.symm, ha.trans hc.symm, ha.trans hd.symm⟩
  · rintro ⟨h1, h2, h3⟩
    subst h1
    subst h2
    subst h3
    simp

/-! ### Claim theorems -/

/-- C1, counterexample: the claim that all four engines return the same
canonical checksum for every byte sequence is false.  On the single byte
`0x01` the two MSB-first engines return `0x741B8CD7` while the two
reflected engines return `0x5323A969`: the reflected engines consume input
bits LSB-first without reflecting the input bytes, so the two families
compute different functions. -/
theorem C1_counterexample :
    bit_crc32k_msb [0x01] = 0x741B8CD7 ∧
    table_crc32k_msb [0x01] = 0x741B8CD7 ∧
    bit_crc32k_reflected [0x01] = 0x5323A969 ∧
    table_crc32k_reflected [0x01] = 0x5323A969 ∧
    bit_crc32k_msb [0x01] ≠ bit_crc32k_reflected [0x01] := by
  decide

/-- C1, amended: for every byte sequence the bitwise and table-driven
MSB-first engines return the same value, and the bitwise and table-driven
reflected engines return the same value; the two families are only
pairwise equal within themselves, not with each other. -/
theorem C1_family_agreement {data : List Nat} (h : ∀ b ∈ data, b < 256) :
    bit_crc32k_msb data = table_crc32k_msb data ∧
    bit_crc32k_reflected data = table_crc32k_reflected data :=
  ⟨msb_engines_agree h, reflected_engines_agree h⟩

/-- Witness for C1 at the concrete input `[0x01, 0xAB]`. -/
theorem C1_family_agreement_witness :
    (∀ b ∈ [0x01, 0xAB], b < 256) ∧
    (bit_crc32k_msb [0x01, 0xAB] = table_crc32k_msb [0x01, 0xAB] ∧
     bit_crc32k_reflected [0x01, 0xAB] = table_crc32k_reflected [0x01, 0xAB]) :=
  ⟨by decide, C1_family_agreement (by decide)⟩

/-- C2: `all_algorithms_agree` returns the four engine outputs in
evaluation order `[bitwise MSB, table MSB, bitwise reflected, table
reflected]` as its second component, and its first component is `true`
exactly when the four outputs are all identical. -/
theorem C2_agreement_checker (data : List Nat) :
    (all_algorithms_agree data).2 =
      [bit_crc32k_msb data, table_crc32k_msb data, bit_crc32k_reflected data,
        table_crc32k_reflected data] ∧
    ((all_algorithms_agree data).1 = true ↔
      (bit_crc32k_msb data = table_crc32k_msb data ∧
       bit_crc32k_msb data = bit_crc32k_reflected data ∧
       bit_crc32k_msb data = table_crc32k_reflected data)) := by
  refine ⟨rfl, ?_⟩
  show (([bit_crc32k_msb data, table_crc32k_msb data, bit_crc32k_reflected data,
      table_crc32k_reflected data].toFinset.card == 1) = true) ↔ _
  rw [beq_iff_eq, four_list_card_one_iff]

/-- C3: `reflect_bits` is an involution on `w`-bit values. -/
theorem C3_reflect_involution (x w : Nat) (h : x < 2 ^ w) :
    reflect_bits (reflect_bits x (w : Int)) (w : Int) = x :=
  reflect_bits_involution w h

/-- Witness for C3 at `x = 0xB`, `w = 4`. -/
theorem C3_reflect_involution_witness :
    0xB < 2 ^ 4 ∧ reflect_bits (reflect_bits 0xB ((4 : Nat) : Int)) ((4 : Nat) : Int) = 0xB :=
  ⟨by decide, C3_reflect_involution 0xB 4 (by decide)⟩

/-- C4: bit `i` of the input appears as bit `w - 1 - i` of
`reflect_bits value w` for every `i < w`; the result fits in `w` bits (so
all higher result bits are zero), and input bits at positions `≥ w` have no
effect (the result only depends on `value mod 2^w`). -/
theorem C4_reflect_spec (value w i : Nat) (h : i < w) :
    (reflect_bits value (w : Int)).testBit (w - 1 - i) = value.testBit i ∧
    reflect_bits value (w : Int) < 2 ^ w ∧
    reflect_bits value (w : Int) = reflect_bits (value % 2 ^ w) (w : Int) := by
  refine ⟨?_, reflect_bits_lt value w, reflect_bits_mod value w⟩
  rw [reflect_bits_testBit]
  have h1 : w - 1 - i < w := by omega
  rw [if_pos h1]
  congr 1
  omega

/-- Witness for C4 at `value = 0xA5`, `w = 8`, `i = 2`. -/
theorem C4_reflect_spec_witness :
    2 < 8 ∧
    ((reflect_bits 0xA5 ((8 : Nat) : Int)).testBit (8 - 1 - 2) = Nat.testBit 0xA5 2 ∧
     reflect_bits 0xA5 ((8 : Nat) : Int) < 2 ^ 8 ∧
     reflect_bits 0xA5 ((8 : Nat) : Int) = reflect_bits (0xA5 % 2 ^ 8) ((8 : Nat) : Int)) :=
  ⟨by decide, C4_reflect_spec 0xA5 8 2 (by decide)⟩

/-- C5: `POLY_MSB` is fixed at `0x741B8CD7` and `POLY_LSB` is its 32-bit
reflection (concretely `0xEB31D82E`), never an independent constant. -/
theorem C5_poly_constants :
    POLY_MSB = 0x741B8CD7 ∧ POLY_LSB = reflect_bits POLY_MSB 32 ∧
      POLY_LSB = 0xEB31D82E :=
  ⟨rfl, rfl, by decide⟩

/-- C6: on the empty byte sequence each of the four engines returns
`0x00000000`. -/
theorem C6_empty_input :
    bit_crc32k_msb [] = 0x00000000 ∧ table_crc32k_msb [] = 0x00000000 ∧
    bit_crc32k_reflected [] = 0x00000000 ∧ table_crc32k_reflected [] = 0x00000000 := by
  decide

/-- C7: in `bit_crc32k_reflected` the accumulator stays strictly below
`2^32` at every intermediate step — the byte-XOR step and the shift round
each preserve the bound, hence the final raw accumulator is below `2^32`
and the final mask `& 0xFFFFFFFF` before reflection never changes it. -/
theorem C7_reflected_register_bounded (data : List Nat) (h : ∀ b ∈ data, b < 256) :
    (∀ crc byte : Nat, crc < 2 ^ 32 → byte < 256 → crc ^^^ byte < 2 ^ 32) ∧
    (∀ crc : Nat, crc < 2 ^ 32 → lsbRound crc < 2 ^ 32) ∧
    bit_crc32k_reflected_raw data < 2 ^ 32 ∧
    bit_crc32k_reflected_raw data &&& 0xFFFFFFFF = bit_crc32k_reflected_raw data := by
  have hstep : ∀ crc byte : Nat, crc < 2 ^ 32 → byte < 256 → crc ^^^ byte < 2 ^ 32 :=
    fun crc byte hc hb => Nat.xor_lt_two_pow hc (Nat.lt_trans hb (by norm_num))
  have hraw : bit_crc32k_reflected_raw data < 2 ^ 32 := by
    rw [bit_crc32k_reflected_raw, (lsb_fold_invariant data 0 (by norm_num) h).1]
    exact (lsb_fold_invariant data 0 (by norm_num) h).2
  exact ⟨hstep, fun _ hc => lsbRound_lt hc, hraw, mask32_of_lt hraw⟩

/-- Witness for C7 at the concrete input `[0x00, 0xFF]`. -/
theorem C7_reflected_register_bounded_witness :
    (∀ b ∈ [0x00, 0xFF], b < 256) ∧
    ((∀ crc byte : Nat, crc < 2 ^ 32 → byte < 256 → crc ^^^ byte < 2 ^ 32) ∧
     (∀ crc : Nat, crc < 2 ^ 32 → lsbRound crc < 2 ^ 32) ∧
     bit_crc32k_reflected_raw [0x00, 0xFF] < 2 ^ 32 ∧
     bit_crc32k_reflected_raw [0x00, 0xFF] &&& 0xFFFFFFFF =
       bit_crc32k_reflected_raw [0x00, 0xFF]) :=
  ⟨by decide, C7_reflected_register_bounded [0x00, 0xFF] (by decide)⟩

/-- C8, counterexample: called with the negative width `-1`, `reflect_bits`
does not fail at all — the loop `for _ in range(width)` executes zero times
and the function silently returns the default accumulator `0`.  No
`InvalidWidth` error exists anywhere in the code. -/
theorem C8_counterexample : reflect_bits 5 (-1) = 0 := rfl

/-- C8, amended: for every nonpositive width, `reflect_bits` silently
returns `0` (the untouched accumulator) instead of raising an error. -/
theorem C8_nonpositive_width (value : Nat) (width : Int) (h : width ≤ 0) :
    reflect_bits value width = 0 := by
  rw [reflect_bits, Int.toNat_of_nonpos h]
  rfl

/-- Witness for C8 at `value = 5`, `width = -1`. -/
theorem C8_nonpositive_width_witness :
    (-1 : Int) ≤ 0 ∧ reflect_bits 5 (-1) = 0 :=
  ⟨by decide, C8_nonpositive_width 5 (-1) (by decide)⟩

/-- C9, counterexample: on the single byte `0x01` the four engine outputs
are not all equal, yet no error of any kind is raised: the agreement
checker returns the plain pair `(False, values)` — it carries no input
length, and `self_test` would not even detect this cross-family mismatch
since its assertions only compare engines within the same family. -/
theorem C9_counterexample :
    all_algorithms_agree [0x01] =
      (false, [0x741B8CD7, 0x741B8CD7, 0x5323A969, 0x5323A969]) := by
  decide

/-- C9, amended: whenever the four outputs are not all equal,
`all_algorithms_agree` does not raise anything; it returns normally with
`false` as its first component and the four raw outputs (but not the input
length) as its second component. -/
theorem C9_mismatch_reported (data : List Nat)
    (h : ¬ (bit_crc32k_msb data = table_crc32k_msb data ∧
            bit_crc32k_msb data = bit_crc32k_reflected data ∧
            bit_crc32k_msb data = table_crc32k_reflected data)) :
    all_algorithms_agree data =
      (false, [bit_crc32k_msb data, table_crc32k_msb data, bit_crc32k_reflected data,
        table_crc32k_reflected data]) := by
  have h1 : ([bit_crc32k_msb data, table_crc32k_msb data, bit_crc32k_reflected data,
      table_crc32k_reflected data].toFinset.card == 1) = false := by
    rw [beq_eq_false_iff_ne]
    intro hcard
    exact h ((four_list_card_one_iff _ _ _ _).mp hcard)
  show (([bit_crc32k_msb data, table_crc32k_msb data, bit_crc32k_reflected data,
      table_crc32k_reflected data].toFinset.card == 1),
    [bit_crc32k_msb data, table_crc32k_msb data, bit_crc32k_reflected data,
      table_crc32k_reflected data]) = _
  rw [h1]

/-- Witness for C9 at the concrete input `[0x01]`. -/
theorem C9_mismatch_reported_witness :
    (¬ (bit_crc32k_msb [0x01] = table_crc32k_msb [0x01] ∧
        bit_crc32k_msb [0x01] = bit_crc32k_reflected [0x01] ∧
        bit_crc32k_msb [0x01] = table_crc32k_reflected [0x01])) ∧
    all_algorithms_agree [0x01] =
      (false, [bit_crc32k_msb [0x01], table_crc32k_msb [0x01],
        bit_crc32k_reflected [0x01], table_crc32k_reflected [0x01]]) :=
  ⟨by decide, C9_mismatch_reported [0x01] (by decide)⟩

/-- C10: prepending a `0x00` byte leaves every engine's checksum unchanged
(the zero initial register absorbs a zero byte), so in particular the
single byte `0x00` hashes like the empty sequence. -/
theorem C10_leading_zero_byte (data : List Nat) :
    bit_crc32k_msb (0 :: data) = bit_crc32k_msb data ∧
    table_crc32k_msb (0 :: data) = table_crc32k_msb data ∧
    bit_crc32k_reflected (0 :: data) = bit_crc32k_reflected data ∧
    table_crc32k_reflected (0 :: data) = table_crc32k_reflected data := by
  have h1 : msbByteStep 0 0 = 0 := by decide
  have h2 : tableMsbByteStep 0 0 = 0 := by decide
  have h3 : lsbByteStep 0 0 = 0 := by decide
  have h4 : tableLsbByteStep 0 0 = 0 := by decide
  refine ⟨?_, ?_, ?_, ?_⟩
  · rw [bit_crc32k_msb, bit_crc32k_msb, List.foldl_cons, h1]
  · rw [table_crc32k_msb, table_crc32k_msb, List.foldl_cons, h2]
  · rw [bit_crc32k_reflected, bit_crc32k_reflected, bit_crc32k_reflected_raw,
      bit_crc32k_reflected_raw, List.foldl_cons, h3]
  · rw [table_crc32k_reflected, table_crc32k_reflected, List.foldl_cons, h4]

end Crc32k
